import Mathlib

/-
Verification of the chessboard state-extraction / synchronization subsystem.

The definitions below are a shallow embedding of the userscript code:
pixel-to-square decoding (`mapCoordsToSquare`), FEN piece-placement
generation (`generateFEN`), the redundant extraction path
(`extractPieces`), perspective resolution (`determinePlayerColor`),
move-number derivation (`determineMoveNumber`), game-boundary detection
(`detectNewGame`, `countPositionDifferences`), the debounced
synchronization pipeline (`onBoardChange`, the mutation-observer debounce),
and the overlay arrow draw ordering (`renderEngineVisualization`).

Pixel quantities are modelled as exact rationals; JavaScript `Math.floor`
on a non-negative/negative quotient is `Int.floor` on the rational
quotient, and `Math.round x` is `Int.floor (x + 1/2)`.
DOM attribute parsing (regex matches on `transform`, `data-piece`,
`data-color` → 'w'/'b') is treated as already-decoded input fields of the
node structures, since the claims are about the decoding arithmetic and
placement logic, not about host string parsing.
-/

/-- A piece node of the LIVE_BOARD layout as consumed by `generateFEN`:
the `data-piece` letter (uppercase regardless of color on this layout),
the color decoded from `data-color` ('5' ↦ 'w', '6' ↦ 'b', with the
class-list fallback), and the pixel offset from the board's top-left
parsed out of the `translate(xpx, ypx)` transform. -/
structure PieceNode where
  ptype : Char
  pcolor : Char
  x : ℚ
  y : ℚ
  deriving DecidableEq

/-- FEN character of a piece node: uppercase for white, lowercase for
black (`pieceColor === 'w' ? pieceType.toUpperCase() : pieceType.toLowerCase()`). -/
def fenCharOf (n : PieceNode) : Char :=
  if n.pcolor = 'w' then n.ptype.toUpper else n.ptype.toLower

/-- `mapCoordsToSquare(x, y, squareSize, playingAsBlack)`: divide the
pixel offsets by the square size and floor to get the visual column/row
(0 = left / top), validate the 0..7 range, then convert visual indices to
the absolute algebraic square using the perspective: when Black is at the
bottom both axes invert.  Returns the algebraic file index (0 = 'a') and
rank number (1..8); the source returns the same two values packed into an
algebraic string such as "e4" which the caller immediately re-parses. -/
def mapCoordsToSquare (x y squareSize : ℚ) (playingAsBlack : Bool) :
    Option (Nat × Nat) :=
  if squareSize ≤ 0 then none
  else
    let fileIndexFromLeft : ℤ := ⌊x / squareSize⌋
    let rankIndexFromTop : ℤ := ⌊y / squareSize⌋
    if fileIndexFromLeft < 0 ∨ 7 < fileIndexFromLeft ∨
       rankIndexFromTop < 0 ∨ 7 < rankIndexFromTop then none
    else
      let f := fileIndexFromLeft.toNat
      let r := rankIndexFromTop.toNat
      let algebraicFileIndex := if playingAsBlack then 7 - f else f
      let algebraicRankNumber := if playingAsBlack then r + 1 else 8 - r
      some (algebraicFileIndex, algebraicRankNumber)

/-- The FEN board array of `generateFEN`: cells written so far, keyed by
(fenRankIndex, fileIndex) with fenRankIndex 0 = rank 8. A cell is written
at most once (first-write-wins), so lookup order is irrelevant for boards
built by `placePiece`. -/
abbrev Board := List (Nat × Nat × Char)

/-- Reads the board cell at FEN rank index `r` and file index `f`. -/
def getCell (b : Board) (r f : Nat) : Option Char :=
  (b.find? (fun e => e.1 == r && e.2.1 == f)).map (fun e => e.2.2)

/-- One placement step of `generateFEN`: validate indices, then write the
piece only when the cell is still empty, incrementing `pieceCount`; a
second piece claiming the square is a logged collision and is discarded. -/
def placePiece (b : Board) (cnt : Nat) (r f : Nat) (c : Char) : Board × Nat :=
  if r ≤ 7 ∧ f ≤ 7 then
    match getCell b r f with
    | none => ((r, f, c) :: b, cnt + 1)
    | some _ => (b, cnt)
  else (b, cnt)

/-- Per-node decoding step of `generateFEN` (LIVE_BOARD branch): map the
pixel offset to a square with the current perspective, and pair the FEN
rank/file indices (`fenRankIndex = 8 - rankNumber`) with the FEN character. -/
def decodePiece (s : ℚ) (pb : Bool) (n : PieceNode) : Option (Nat × Nat × Char) :=
  (mapCoordsToSquare n.x n.y s pb).map (fun q => (8 - q.2, q.1, fenCharOf n))

/-- One iteration of the piece loop of `generateFEN`: decode the node and
place it (or skip it when decoding failed). -/
def genFENStep (s : ℚ) (pb : Bool) (acc : Board × Nat) (n : PieceNode) :
    Board × Nat :=
  match decodePiece s pb n with
  | none => acc
  | some t => placePiece acc.1 acc.2 t.1 t.2.1 t.2.2

/-- The piece-processing loop of `generateFEN`: fold the decoded pieces
into the board array, counting successful placements. -/
def processPieces (nodes : List PieceNode) (s : ℚ) (pb : Bool) : Board × Nat :=
  nodes.foldl (genFENStep s pb) ([], 0)

/-- Serializes one rank of the board array into its FEN run-length form
(pieces interleaved with empty-square counts). -/
def emitRank (b : Board) (r : Nat) : String :=
  let res := (List.range 8).foldl
    (fun (acc : String × Nat) f =>
      match getCell b r f with
      | some c => ((if 0 < acc.2 then acc.1.push (Nat.digitChar acc.2) else acc.1).push c, 0)
      | none => (acc.1, acc.2 + 1))
    ("", 0)
  if 0 < res.2 then res.1.push (Nat.digitChar res.2) else res.1

/-- The piece-placement field: ranks 8 down to 1 joined by '/'. -/
def fenPiecePlacement (b : Board) : String :=
  String.intercalate "/" ((List.range 8).map (emitRank b))

/-- The placement part of `generateFEN`: null when piece nodes were found
but none could be placed (`pieceCount === 0 && pieces.length > 0`). -/
def generateFENPlacement (nodes : List PieceNode) (s : ℚ) (pb : Bool) :
    Option String :=
  let res := processPieces nodes s pb
  if res.2 = 0 ∧ 0 < nodes.length then none
  else some (fenPiecePlacement res.1)

/-- Full `generateFEN`: placement plus active color, placeholder
castling/en-passant/half-move fields, and the full-move number. -/
def generateFEN (nodes : List PieceNode) (s : ℚ) (pb : Bool)
    (activeColor : String) (moveNumber : Nat) : Option String :=
  (generateFENPlacement nodes s pb).map
    (fun pl => pl ++ " " ++ activeColor ++ " - - 0 " ++ toString moveNumber)

/-- `calculateAndSendFEN`: state-transition view.  The first component is
the new `currentFen`, the second whether a transmission happened.  A null
generation result returns early (no send, no snapshot update); an
unchanged FEN is not resent. -/
def calculateAndSendFEN (currentFen : String) (genResult : Option String) :
    String × Bool :=
  match genResult with
  | none => (currentFen, false)
  | some newFen =>
    if newFen = currentFen then (currentFen, false) else (newFen, true)

/-- `mapCoordsToSquare` of the chrome-extension variant: rounds (rather
than floors) the quotients and always decodes assuming White at the
bottom; the perspective is applied later at placement time. -/
def vmMapCoordsToSquare (x y squareSize : ℚ) : Option (Nat × Nat) :=
  if squareSize ≤ 0 then none
  else
    let fileIndex : ℤ := ⌊x / squareSize + 1 / 2⌋
    let rankIndex : ℤ := 7 - ⌊y / squareSize + 1 / 2⌋
    if fileIndex < 0 ∨ 7 < fileIndex ∨ rankIndex < 0 ∨ 7 < rankIndex then none
    else some (fileIndex.toNat, rankIndex.toNat + 1)

/-- Placement step of the chrome-extension `generateFEN`: a plain array
write (later writes overwrite earlier ones), flipping both axes when
playing as Black.  The freshest write is consed to the front, so `getCell`
returns it. -/
def vmPlace (b : Board) (pb : Bool) (rankIndex fileIndex : Nat) (c : Char) : Board :=
  if pb then (7 - rankIndex, 7 - fileIndex, c) :: b
  else (rankIndex, fileIndex, c) :: b

/-- One iteration of the chrome-extension piece loop: decode assuming
White at the bottom, validate the FEN indices, and write (overwriting). -/
def vmStep (s : ℚ) (pb : Bool) (b : Board) (n : PieceNode) : Board :=
  match vmMapCoordsToSquare n.x n.y s with
  | none => b
  | some q =>
    let rankIndex := 8 - q.2
    if rankIndex ≤ 7 ∧ q.1 ≤ 7 then vmPlace b pb rankIndex q.1 (fenCharOf n)
    else b

/-- The piece loop of the chrome-extension `generateFEN`. -/
def vmProcess (nodes : List PieceNode) (s : ℚ) (pb : Bool) : Board :=
  nodes.foldl (vmStep s pb) []

/-- The chrome-extension `generateFEN` placement field: null when no piece
elements are present at all. -/
def vmGenerateFENPlacement (nodes : List PieceNode) (s : ℚ) (pb : Bool) :
    Option String :=
  if nodes.length = 0 then none
  else some (fenPiecePlacement (vmProcess nodes s pb))

/-- An entry of the standard starting arrangement: absolute file index
(0 = 'a'), rank number (1..8), color and `data-piece` letter. -/
structure StartEntry where
  file : Nat
  rank : Nat
  color : Char
  ptype : Char
  deriving DecidableEq

/-- Back-rank `data-piece` letters, files a..h. -/
def backRankTypes : List Char := ['R', 'N', 'B', 'Q', 'K', 'B', 'N', 'R']

/-- The 32 entries of the standard starting arrangement. -/
def startEntries : List StartEntry :=
  ((List.range 8).map fun f => ⟨f, 8, 'b', backRankTypes.getD f 'R'⟩)
  ++ ((List.range 8).map fun f => ⟨f, 7, 'b', 'P'⟩)
  ++ ((List.range 8).map fun f => ⟨f, 2, 'w', 'P'⟩)
  ++ ((List.range 8).map fun f => ⟨f, 1, 'w', backRankTypes.getD f 'R'⟩)

/-- Renders an arrangement entry as the DOM piece node the page produces
under perspective `pb`: the node sits at pixel offset
(visual column · squareSize, visual row · squareSize), where the visual
column/row are the perspective image of the absolute square. -/
def renderPieceNode (pb : Bool) (s : ℚ) (e : StartEntry) : PieceNode :=
  { ptype := e.ptype
    pcolor := e.color
    x := ((if pb then 7 - e.file else e.file : Nat) : ℚ) * s
    y := ((if pb then e.rank - 1 else 8 - e.rank : Nat) : ℚ) * s }

/-- The 32 piece nodes of a board showing the starting arrangement under
perspective `pb`. -/
def startNodes (pb : Bool) (s : ℚ) : List PieceNode :=
  startEntries.map (renderPieceNode pb s)

/-- The canonical starting piece-placement string. -/
def startPlacement : String := "rnbqkbnr/pppppppp/8/8/8/8/PPPPPPPP/RNBQKBNR"

/-- FEN character of an arrangement entry (same rule as `fenCharOf`). -/
def fenCharOfEntry (e : StartEntry) : Char :=
  if e.color = 'w' then e.ptype.toUpper else e.ptype.toLower

/-- The recognized page layout kinds. -/
inductive LayoutType where
  | WC_BOARD
  | LIVE_BOARD
  | UNKNOWN
  deriving DecidableEq

/-- The determination method recorded by `determinePlayerColor`
(its `determinationMethod` log string, as a tag). -/
inductive ColorMethod where
  | explicitAttrBlack
  | explicitAttrWhite
  | explicitFlipped
  | explicitBlackPersp
  | containerFlipped
  | containerBlackPersp
  | coordFallbackBlack
  | coordFallbackWhite
  | defaultWhite
  deriving DecidableEq

/-- The structural facts about the page that `determinePlayerColor`
inspects: the board element's `orientation` attribute and
flipped / black-perspective classes, the same classes on the enclosing
container (when one exists), the layout kind, and the parsed `y`
coordinates of the rank-label elements for "1" and "8" (absent when the
label is missing or unparseable). -/
structure BoardDom where
  layoutType : LayoutType
  orientationAttr : Option String
  boardFlipped : Bool
  boardBlackPersp : Bool
  containerPresent : Bool
  containerFlipped : Bool
  containerBlackPersp : Bool
  rank1Y : Option ℚ
  rank8Y : Option ℚ

/-- `determinePlayerColor()`: Method 1 checks the board element
(`orientation` attribute, then `flipped` class, then `black-perspective`
class); Method 2 the same classes on the container; Method 3 the
LIVE_BOARD-only geometric fallback comparing the rank-label `y`
coordinates (`rank1Y < rank8Y` means Black at the bottom); otherwise the
default White.  Returns `playingAsBlack` and the method tag. -/
def determinePlayerColor (d : BoardDom) : Bool × ColorMethod :=
  if d.orientationAttr = some "black" then (true, ColorMethod.explicitAttrBlack)
  else if d.orientationAttr = some "white" then (false, ColorMethod.explicitAttrWhite)
  else if d.boardFlipped then (true, ColorMethod.explicitFlipped)
  else if d.boardBlackPersp then (true, ColorMethod.explicitBlackPersp)
  else if d.containerPresent ∧ d.containerFlipped then
    (true, ColorMethod.containerFlipped)
  else if d.containerPresent ∧ d.containerBlackPersp then
    (true, ColorMethod.containerBlackPersp)
  else if d.layoutType = LayoutType.LIVE_BOARD then
    match d.rank1Y, d.rank8Y with
    | some y1, some y8 =>
      if y1 < y8 then (true, ColorMethod.coordFallbackBlack)
      else if y8 < y1 then (false, ColorMethod.coordFallbackWhite)
      else (false, ColorMethod.defaultWhite)
    | _, _ => (false, ColorMethod.defaultWhite)
  else (false, ColorMethod.defaultWhite)

/-- An explicit orientation indicator is present on the board root:
an `orientation` attribute stating black or white, or a `flipped` /
`black-perspective` structural class. -/
def explicitOnBoardRoot (d : BoardDom) : Prop :=
  d.orientationAttr = some "black" ∨ d.orientationAttr = some "white" ∨
  d.boardFlipped = true ∨ d.boardBlackPersp = true

/-- The move-counting fallback of `determineActiveColor` (LIVE_BOARD, no
highlighted move): zero move cells means White to move; an odd count means
White made the last half-move, so Black to move; an even count White. -/
def determineActiveColorFallback (moveCount : Nat) : String :=
  if moveCount = 0 then "w"
  else if moveCount % 2 = 1 then "b"
  else "w"

/-- The whole-move label on the last rendered move-list row of a standard
game after `N` completed half-moves: none when the list is empty, else
⌈N/2⌉ (the host page numbers rows 1., 2., …).  This models the move-list
markup that `determineMoveNumber` reads back. -/
def lastDisplayedWholeMoveNumber (N : Nat) : Option Nat :=
  if N = 0 then none else some ((N + 1) / 2)

/-- `determineMoveNumber()`: read the last displayed whole-move number
(defaulting to 1 when no move elements exist), then adjust to the FEN
convention: when White is to move return `moveNr + 1`, else `moveNr`. -/
def determineMoveNumber (displayed : Option Nat) (activeColor : String) : Nat :=
  let moveNr := displayed.getD 1
  if activeColor = "w" then moveNr + 1 else moveNr

/-- The full-move number the extractor emits for a standard game with `N`
completed half-moves (move list rendered as above, active color from the
parity fallback). -/
def fullMoveNumberAfterHalfMoves (N : Nat) : Nat :=
  determineMoveNumber (lastDisplayedWholeMoveNumber N)
    (determineActiveColorFallback N)

/-- A pieces object: square name ("a1".."h8") to piece code ("wR", "bK", …),
in insertion order, mirroring a JavaScript object with string keys. -/
abbrev PosMap := List (String × String)

/-- Property access `pieces[square]`. -/
def lookupPos (m : PosMap) (k : String) : Option String :=
  (m.find? (fun e => e.1 == k)).map (fun e => e.2)

/-- Property assignment `pieces[square] = code` on a JavaScript object:
an existing key keeps its position and gets the new value, a new key is
appended. -/
def jsInsert (m : PosMap) (k v : String) : PosMap :=
  if (m.find? (fun e => e.1 == k)).isSome then
    m.map (fun e => if e.1 == k then (k, v) else e)
  else m ++ [(k, v)]

/-- Algebraic square name from the file index (0 = 'a') and rank number. -/
def squareName (f rk : Nat) : String :=
  String.mk [Char.ofNat (97 + f), Nat.digitChar rk]

/-- A LIVE_BOARD piece node as consumed by `extractPieces`: the two
characters of the `data-piece` attribute (e.g. "wp") and the pixel offset
from the transform. -/
structure LiveNode where
  c0 : Char
  c1 : Char
  x : ℚ
  y : ℚ
  deriving DecidableEq

/-- The decoding step of `extractPieces` (LIVE_BOARD branch): floor the
pixel offsets by the square size, validate 0..7, and map them directly to
`file = fileIdx`, `rank = 8 - rankIdx` — no perspective input.  Piece code:
color is 'w' when the first `data-piece` character is 'w' (else 'b'),
type is the uppercased second character. -/
def decodeLiveNode (s : ℚ) (n : LiveNode) : Option (String × String) :=
  if s ≤ 0 then none
  else
    let fileIdx : ℤ := ⌊n.x / s⌋
    let rankIdx : ℤ := ⌊n.y / s⌋
    if 0 ≤ fileIdx ∧ fileIdx < 8 ∧ 0 ≤ rankIdx ∧ rankIdx < 8 then
      some (squareName fileIdx.toNat (8 - rankIdx.toNat),
            String.mk [if n.c0 = 'w' then 'w' else 'b', n.c1.toUpper])
    else none

/-- `extractPieces` (LIVE_BOARD branch): decode every piece element and
assign it into the pieces object — a plain property write, so a later
node claiming the same square silently overwrites the earlier one. -/
def extractPieces (nodes : List LiveNode) (s : ℚ) : PosMap :=
  (nodes.filterMap (decodeLiveNode s)).foldl (fun m e => jsInsert m e.1 e.2) []

/-- The eight key squares checked by `isStandardInitialPosition`. -/
def keyPositions : List (String × String) :=
  [("a1", "wR"), ("e1", "wK"), ("a8", "bR"), ("e8", "bK"),
   ("b1", "wN"), ("g1", "wN"), ("b8", "bN"), ("g8", "bN")]

/-- `isStandardInitialPosition`: at least 6 of the 8 key pieces are on
their home squares. -/
def isStandardInitialPosition (pieces : PosMap) : Bool :=
  6 ≤ keyPositions.countP (fun kv => lookupPos pieces kv.1 == some kv.2)

/-- `countPositionDifferences(positionA, positionB)`: count the entries of
A whose square is absent from B or maps to a different code, plus the
entries of B whose square is absent from A or differs, and halve the
total (the source divides by 2 "since we counted each difference twice").
The result is a JavaScript number, hence a rational. -/
def countPositionDifferences (positionA positionB : PosMap) : ℚ :=
  let countA := positionA.countP
    (fun e => match lookupPos positionB e.1 with
      | none => true
      | some q => q != e.2)
  let countB := positionB.countP
    (fun e => match lookupPos positionA e.1 with
      | none => true
      | some q => q != e.2)
  ((countA + countB : ℕ) : ℚ) / 2

/-- The set of squares a pieces object assigns. -/
def posKeys (m : PosMap) : Finset String := (m.map Prod.fst).toFinset

/-- Following the claim's words: the number of squares whose assignment
differs between the two maps — squares occupied in exactly one map or
mapped to different codes in both. -/
def claimedDifferenceCount (a b : PosMap) : ℕ :=
  ((posKeys a ∪ posKeys b).filter (fun sq => lookupPos a sq ≠ lookupPos b sq)).card

/-- Squares occupied in both maps with different codes. -/
def bothOccupiedDiff (a b : PosMap) : ℕ :=
  ((posKeys a ∩ posKeys b).filter (fun sq => lookupPos a sq ≠ lookupPos b sq)).card

/-- Squares occupied in exactly one of the two maps. -/
def oneSideOnly (a b : PosMap) : ℕ :=
  ((posKeys a \ posKeys b) ∪ (posKeys b \ posKeys a)).card

/-- The persisted game session (`currentGame`): opaque id (absent before
any game was created), the game id parsed from the page URL, the recorded
start position, the accumulated move list, and the last-update
timestamp in milliseconds. -/
structure GameSession where
  id : Option String
  gameIdFromUrl : Option String
  startPosition : Option PosMap
  moveList : List String
  lastUpdated : Int

/-- `detectNewGame(pieces, moveList)`: any one of the seven signals
suffices — no current game; the URL game id changed; the move list shrank
from more than 5 entries to fewer than 2; the position differs from the
recorded start in more than 16 places while the candidate list is still
short; a standard initial position shows up after more than 10 recorded
moves; the first five moves changed completely; or more than 15 minutes
passed since the last update. -/
def detectNewGame (g : GameSession) (urlGameId : Option String)
    (pieces : PosMap) (moveList : List String) (now : Int) : Bool :=
  if g.id.isNone then true
  else if (match urlGameId, g.gameIdFromUrl with
           | some u, some st => u != st
           | _, _ => false) then true
  else if 5 < g.moveList.length ∧ moveList.length < 2 then true
  else if (match g.startPosition with
           | some sp =>
             decide (moveList.length < 3 ∧
               (16 : ℚ) < countPositionDifferences sp pieces)
           | none => false) then true
  else if isStandardInitialPosition pieces ∧ 10 < g.moveList.length then true
  else if 5 < g.moveList.length ∧ 5 < moveList.length ∧
          String.intercalate "," (g.moveList.take 5) ≠
            String.intercalate "," (moveList.take 5) then true
  else if 15 * 60 * 1000 < now - g.lastUpdated then true
  else false

/-- The two outcomes of a game-session classification. -/
inductive GameDecision where
  | startNew
  | continueGame
  deriving DecidableEq

/-- The session decision taken by `extractBoardData`: `startNewGame` when
`detectNewGame` fires, otherwise `updateCurrentGame`. -/
def classifyGame (g : GameSession) (urlGameId : Option String)
    (pieces : PosMap) (moveList : List String) (now : Int) : GameDecision :=
  if detectNewGame g urlGameId pieces moveList now then GameDecision.startNew
  else GameDecision.continueGame

/-- The `lastSent` snapshot of the synchronization pipeline and the data
triple produced by one recompute cycle: pieces, move list, variant. -/
structure Snapshot where
  pieces : PosMap
  moveList : List String
  variant : String
  deriving DecidableEq

/-- The debounced body of `onBoardChange`: compare the freshly extracted
triple against `lastSent` component-wise (the source compares
`JSON.stringify` images, i.e. the structures themselves), transmit and
replace the snapshot only on a difference.  Returns the new snapshot and
whether a transmission happened. -/
def onBoardChangeStep (lastSent : Snapshot) (data : Snapshot) :
    Snapshot × Bool :=
  let isMoveListChanged := data.moveList ≠ lastSent.moveList
  let isPiecesChanged := data.pieces ≠ lastSent.pieces
  let isVariantChanged := data.variant ≠ lastSent.variant
  if isPiecesChanged ∨ isMoveListChanged ∨ isVariantChanged then (data, true)
  else (lastSent, false)

/-- Trailing-edge debounce semantics of the mutation callback: given the
chronological notification times, each notification clears any pending
timer and arms a new one `D` later; a timer fires only when no further
notification arrives before its expiry.  Returns the times at which the
recompute cycle actually runs. -/
def debounceFires (D : Nat) : List Nat → List Nat
  | [] => []
  | [t] => [t + D]
  | t :: t2 :: rest =>
    if t2 < t + D then debounceFires D (t2 :: rest)
    else (t + D) :: debounceFires D (t2 :: rest)

/-- An inbound analysis shape after endpoint squares are parsed: origin
and destination as file index (0 = 'a') / rank number, the candidate-move
rank (1 = best), and an optional score. -/
structure AnalysisShape where
  fromFile : Nat
  fromRank : Nat
  toFile : Nat
  toRank : Nat
  rank : Nat
  score : Option Int
  deriving DecidableEq

/-- `getSquareCoordinates(square, playingAsBlack)`: validate the algebraic
square, convert it to visual column/row under the current perspective, and
return the pixel center of that visual cell. -/
def getSquareCoordinates (f rk : Nat) (s : ℚ) (pb : Bool) : Option (ℚ × ℚ) :=
  if s ≤ 0 then none
  else if f ≤ 7 ∧ 1 ≤ rk ∧ rk ≤ 8 then
    let visualFileIndex : ℚ := if pb then (7 - f : Nat) else f
    let visualRankIndex : ℚ := if pb then (rk - 1 : Nat) else (8 - rk : Nat)
    some ((visualFileIndex + 1 / 2) * s, (visualRankIndex + 1 / 2) * s)
  else none

/-- A shape with both endpoints resolved to pixel coordinates. -/
structure ProcessedShape where
  shape : AnalysisShape
  fromCoords : ℚ × ℚ
  toCoords : ℚ × ℚ
  deriving DecidableEq

/-- Coordinate resolution step of `renderEngineVisualization`: a shape is
dropped when either endpoint fails to resolve. -/
def resolveShape (s : ℚ) (pb : Bool) (a : AnalysisShape) :
    Option ProcessedShape :=
  match getSquareCoordinates a.fromFile a.fromRank s pb,
        getSquareCoordinates a.toFile a.toRank s pb with
  | some fc, some tc => some ⟨a, fc, tc⟩
  | _, _ => none

/-- The squared endpoint distance of an arrow.  The source computes the
Euclidean length `sqrt(dx*dx + dy*dy)` and compares lengths; the square
root is strictly monotone on non-negative reals, so comparing squared
lengths induces exactly the same order. -/
def arrowLengthSq (p : ProcessedShape) : ℚ :=
  (p.toCoords.1 - p.fromCoords.1) ^ 2 + (p.toCoords.2 - p.fromCoords.2) ^ 2

/-- The length sort of `renderEngineVisualization`
(`sort((a, b) => b.arrowLength - a.arrowLength)`): longer arrows first,
so they are drawn first and shorter arrows land on top. -/
def sortByLengthDesc (l : List ProcessedShape) : List ProcessedShape :=
  l.mergeSort (fun a b => decide (arrowLengthSq b ≤ arrowLengthSq a))

/-- The order in which `renderEngineVisualization` appends arrows to the
drawing surface for a batch: resolve coordinates, then sort by descending
length.  (The fan-out offsets applied between sorting and drawing adjust
coordinates but never reorder the list.) -/
def renderDrawOrder (batch : List AnalysisShape) (s : ℚ) (pb : Bool) :
    List ProcessedShape :=
  sortByLengthDesc (batch.filterMap (resolveShape s pb))

/- Helper lemmas for the rendering round-trip. -/

lemma floor_natCast_mul_div (k : Nat) (s : ℚ) (hs : 0 < s) :
    ⌊((k : ℚ) * s) / s⌋ = (k : ℤ) := by
  rw [mul_div_assoc, div_self (ne_of_gt hs), mul_one, Int.floor_natCast]

lemma floor_natCast_add_half (k : Nat) : ⌊(k : ℚ) + 1 / 2⌋ = (k : ℤ) := by
  rw [Int.floor_eq_iff]
  constructor
  · norm_num
  · push_cast
    norm_num

lemma mapCoordsToSquare_render (s : ℚ) (hs : 0 < s) (pb : Bool) (c r : Nat)
    (hc : c ≤ 7) (hr : r ≤ 7) :
    mapCoordsToSquare ((c : ℚ) * s) ((r : ℚ) * s) s pb =
      some ((if pb then 7 - c else c), (if pb then r + 1 else 8 - r)) := by
  unfold mapCoordsToSquare
  rw [if_neg (not_le.mpr hs)]
  simp only [floor_natCast_mul_div _ _ hs]
  rw [if_neg (by omega)]
  simp [Int.toNat_natCast]

lemma vmMapCoordsToSquare_render (s : ℚ) (hs : 0 < s) (c r : Nat)
    (hc : c ≤ 7) (hr : r ≤ 7) :
    vmMapCoordsToSquare ((c : ℚ) * s) ((r : ℚ) * s) s = some (c, 8 - r) := by
  unfold vmMapCoordsToSquare
  rw [if_neg (not_le.mpr hs)]
  rw [show ((c : ℚ) * s) / s + 1 / 2 = (c : ℚ) + 1 / 2 by
        rw [mul_div_assoc, div_self (ne_of_gt hs), mul_one],
      show ((r : ℚ) * s) / s + 1 / 2 = (r : ℚ) + 1 / 2 by
        rw [mul_div_assoc, div_self (ne_of_gt hs), mul_one]]
  rw [floor_natCast_add_half, floor_natCast_add_half]
  rw [if_neg (by omega)]
  simp only [Option.some.injEq, Prod.mk.injEq]
  omega

lemma decodePiece_render (s : ℚ) (hs : 0 < s) (pb : Bool) (e : StartEntry)
    (hf : e.file ≤ 7) (h1 : 1 ≤ e.rank) (h8 : e.rank ≤ 8) :
    decodePiece s pb (renderPieceNode pb s e) =
      some (8 - e.rank, e.file, fenCharOfEntry e) := by
  unfold decodePiece renderPieceNode fenCharOf fenCharOfEntry
  cases pb with
  | false =>
      rw [show ((if false = true then 7 - e.file else e.file : Nat) : ℚ) = (e.file : ℚ) by simp,
          show ((if false = true then e.rank - 1 else 8 - e.rank : Nat) : ℚ) = ((8 - e.rank : Nat) : ℚ) by simp]
      rw [mapCoordsToSquare_render s hs false e.file (8 - e.rank) hf (by omega)]
      simp only [Option.map_some', Option.some.injEq, Prod.mk.injEq,
        if_neg (by decide : ¬(false = true))]
      refine ⟨by omega, trivial⟩
  | true =>
      rw [show ((if true = true then 7 - e.file else e.file : Nat) : ℚ) = ((7 - e.file : Nat) : ℚ) by simp,
          show ((if true = true then e.rank - 1 else 8 - e.rank : Nat) : ℚ) = ((e.rank - 1 : Nat) : ℚ) by simp]
      rw [mapCoordsToSquare_render s hs true (7 - e.file) (e.rank - 1) (by omega) (by omega)]
      simp only [Option.map_some', Option.some.injEq, Prod.mk.injEq, if_true]
      refine ⟨by omega, by omega, trivial⟩

lemma genFENStep_render (s : ℚ) (hs : 0 < s) (pb : Bool) (e : StartEntry)
    (hf : e.file ≤ 7) (h1 : 1 ≤ e.rank) (h8 : e.rank ≤ 8) (acc : Board × Nat) :
    genFENStep s pb acc (renderPieceNode pb s e) =
      placePiece acc.1 acc.2 (8 - e.rank) e.file (fenCharOfEntry e) := by
  unfold genFENStep
  rw [decodePiece_render s hs pb e hf h1 h8]

lemma vmStep_render (s : ℚ) (hs : 0 < s) (pb : Bool) (e : StartEntry)
    (hf : e.file ≤ 7) (h1 : 1 ≤ e.rank) (h8 : e.rank ≤ 8) (b : Board) :
    vmStep s pb b (renderPieceNode pb s e) =
      (8 - e.rank, e.file, fenCharOfEntry e) :: b := by
  have hchar : fenCharOf (renderPieceNode pb s e) = fenCharOfEntry e := rfl
  cases pb with
  | false =>
      have hm : vmMapCoordsToSquare (renderPieceNode false s e).x
          (renderPieceNode false s e).y s = some (e.file, 8 - (8 - e.rank)) := by
        have hx : (renderPieceNode false s e).x = (e.file : ℚ) * s := by
          simp [renderPieceNode]
        have hy : (renderPieceNode false s e).y = ((8 - e.rank : Nat) : ℚ) * s := by
          simp [renderPieceNode]
        rw [hx, hy, vmMapCoordsToSquare_render s hs e.file (8 - e.rank) hf (by omega)]
      simp only [vmStep, hm]
      rw [if_pos (by omega)]
      unfold vmPlace
      rw [if_neg (by decide : ¬(false = true)), hchar]
      have h : 8 - (8 - (8 - e.rank)) = 8 - e.rank := by omega
      rw [h]
  | true =>
      have hm : vmMapCoordsToSquare (renderPieceNode true s e).x
          (renderPieceNode true s e).y s =
            some (7 - e.file, 8 - (e.rank - 1)) := by
        have hx : (renderPieceNode true s e).x = ((7 - e.file : Nat) : ℚ) * s := by
          simp [renderPieceNode]
        have hy : (renderPieceNode true s e).y = ((e.rank - 1 : Nat) : ℚ) * s := by
          simp [renderPieceNode]
        rw [hx, hy, vmMapCoordsToSquare_render s hs (7 - e.file) (e.rank - 1) (by omega) (by omega)]
      simp only [vmStep, hm]
      rw [if_pos (by omega)]
      unfold vmPlace
      rw [if_pos rfl, hchar]
      have h : 7 - (8 - (8 - (e.rank - 1))) = 8 - e.rank := by omega
      have h2 : 7 - (7 - e.file) = e.file := by omega
      rw [h, h2]

lemma foldl_map_step {α β γ : Type} (f : γ → β → γ) (g : γ → α → γ) (r : α → β) :
    ∀ (l : List α), (∀ acc a, a ∈ l → f acc (r a) = g acc a) →
    ∀ acc, List.foldl f acc (l.map r) = List.foldl g acc l := by
  intro l
  induction l with
  | nil => intro _ acc; rfl
  | cons a l ih =>
      intro h acc
      simp only [List.map_cons, List.foldl_cons]
      rw [h acc a (List.mem_cons_self a l)]
      exact ih (fun acc x hx => h acc x (List.mem_cons_of_mem a hx)) _

lemma startEntries_bounds :
    ∀ e ∈ startEntries, e.file ≤ 7 ∧ 1 ≤ e.rank ∧ e.rank ≤ 8 := by decide

lemma processPieces_startNodes (s : ℚ) (hs : 0 < s) (pb : Bool) :
    processPieces (startNodes pb s) s pb =
      List.foldl
        (fun acc e => placePiece acc.1 acc.2 (8 - e.rank) e.file (fenCharOfEntry e))
        ([], 0) startEntries := by
  unfold processPieces startNodes
  refine foldl_map_step _ _ _ startEntries ?_ ([], 0)
  intro acc e he
  have hb := startEntries_bounds e he
  exact genFENStep_render s hs pb e hb.1 hb.2.1 hb.2.2 acc

lemma vmProcess_startNodes (s : ℚ) (hs : 0 < s) (pb : Bool) :
    vmProcess (startNodes pb s) s pb =
      List.foldl (fun b e => (8 - e.rank, e.file, fenCharOfEntry e) :: b)
        [] startEntries := by
  unfold vmProcess startNodes
  refine foldl_map_step _ _ _ startEntries ?_ []
  intro b e he
  have hb := startEntries_bounds e he
  exact vmStep_render s hs pb e hb.1 hb.2.1 hb.2.2 b

/-- Claim C1: for every board whose piece nodes encode the standard
32-piece starting arrangement (rendered at any positive square size under
either perspective), both the userscript `generateFEN` pipeline and the
chrome-extension `generateFEN` pipeline emit the canonical piece-placement
string `rnbqkbnr/pppppppp/8/8/8/8/PPPPPPPP/RNBQKBNR` — the emitted
placement is perspective-agnostic even though the pixel-to-square
decoding is perspective-dependent. -/
theorem c1_startPosition_placement_perspective_agnostic (s : ℚ) (hs : 0 < s)
    (pb : Bool) :
    generateFENPlacement (startNodes pb s) s pb = some startPlacement ∧
    vmGenerateFENPlacement (startNodes pb s) s pb = some startPlacement := by
  have hlen : (startNodes pb s).length = 32 := by
    unfold startNodes; rw [List.length_map]; decide
  constructor
  · unfold generateFENPlacement
    rw [processPieces_startNodes s hs pb, hlen]
    decide
  · unfold vmGenerateFENPlacement
    rw [hlen, if_neg (by decide), vmProcess_startNodes s hs pb]
    decide

/-- Witness for C1: concrete instance at square size 60 with Black at the
bottom. -/
theorem c1_startPosition_placement_witness :
    generateFENPlacement (startNodes true 60) 60 true = some startPlacement ∧
    vmGenerateFENPlacement (startNodes true 60) 60 true = some startPlacement :=
  c1_startPosition_placement_perspective_agnostic 60 (by norm_num) true

/-- Claim C2 (divergence): after `N` completed half-moves the emitted
full-move number matches the FEN convention `N/2 + 1` (N even) /
`(N+1)/2` (N odd) for every `N ≥ 1`, but at `N = 0` — an empty move
list — the code emits 2 instead of the required 1: no move-number element
exists, so `moveNr` stays at its default 1, the active color is White,
and the adjustment returns `moveNr + 1` with no start-of-game exception
(the source's own comment says "unless it is the very start"). -/
theorem c2_fullMoveNumber_start_bug :
    fullMoveNumberAfterHalfMoves 0 = 2 ∧
    ∀ N : Nat, 1 ≤ N →
      fullMoveNumberAfterHalfMoves N =
        (if N % 2 = 0 then N / 2 + 1 else (N + 1) / 2) := by
  constructor
  · rfl
  · intro N hN
    have h0 : N ≠ 0 := by omega
    by_cases hpar : N % 2 = 1
    · unfold fullMoveNumberAfterHalfMoves
      rw [show determineActiveColorFallback N = "b" by
            unfold determineActiveColorFallback; rw [if_neg h0, if_pos hpar],
          show lastDisplayedWholeMoveNumber N = some ((N + 1) / 2) by
            unfold lastDisplayedWholeMoveNumber; rw [if_neg h0]]
      unfold determineMoveNumber
      rw [if_neg (by decide : ¬("b" = "w"))]
      simp only [Option.getD_some]
      rw [if_neg (by omega)]
    · unfold fullMoveNumberAfterHalfMoves
      rw [show determineActiveColorFallback N = "w" by
            unfold determineActiveColorFallback; rw [if_neg h0, if_neg hpar],
          show lastDisplayedWholeMoveNumber N = some ((N + 1) / 2) by
            unfold lastDisplayedWholeMoveNumber; rw [if_neg h0]]
      unfold determineMoveNumber
      rw [if_pos rfl]
      simp only [Option.getD_some]
      rw [if_pos (by omega)]
      omega

/-- Witness for C2: the agreement part applied at N = 2 (White to move,
full-move number 2). -/
theorem c2_fullMoveNumber_witness : fullMoveNumberAfterHalfMoves 2 = 2 := by
  have h := c2_fullMoveNumber_start_bug.2 2 (by norm_num)
  simpa using h

/-- Claim C3: whenever an explicit orientation indicator is present on the
board root (an `orientation` attribute or a flipped / black-perspective
class), `determinePlayerColor` returns the orientation stated by that
indicator under the source's precedence, reports an explicit provenance,
and never consults the geometric rank-label fallback: its result is
unchanged under arbitrary replacement of the rank-label coordinates —
even when those would, run independently, yield the opposite answer. -/
theorem c3_explicit_indicator_overrides_fallback (d : BoardDom) (h : explicitOnBoardRoot d) :
    (∀ y1 y8 : Option ℚ,
      determinePlayerColor { d with rank1Y := y1, rank8Y := y8 } =
        determinePlayerColor d) ∧
    (d.orientationAttr = some "black" → (determinePlayerColor d).1 = true) ∧
    (d.orientationAttr = some "white" → (determinePlayerColor d).1 = false) ∧
    (d.orientationAttr ≠ some "black" → d.orientationAttr ≠ some "white" →
      d.boardFlipped = true → (determinePlayerColor d).1 = true) ∧
    (d.orientationAttr ≠ some "black" → d.orientationAttr ≠ some "white" →
      d.boardFlipped = false → d.boardBlackPersp = true →
      (determinePlayerColor d).1 = true) ∧
    ((determinePlayerColor d).2 = ColorMethod.explicitAttrBlack ∨
     (determinePlayerColor d).2 = ColorMethod.explicitAttrWhite ∨
     (determinePlayerColor d).2 = ColorMethod.explicitFlipped ∨
     (determinePlayerColor d).2 = ColorMethod.explicitBlackPersp) := by
  by_cases h1 : d.orientationAttr = some "black"
  · have hval : ∀ x : BoardDom, x.orientationAttr = some "black" →
        determinePlayerColor x = (true, ColorMethod.explicitAttrBlack) := by
      intro x hx
      unfold determinePlayerColor
      rw [if_pos hx]
    refine ⟨?_, ?_, ?_, ?_, ?_, ?_⟩
    · intro y1 y8
      rw [hval { d with rank1Y := y1, rank8Y := y8 } h1, hval d h1]
    · intro _; rw [hval d h1]
    · intro h2; rw [h1] at h2; exact absurd h2 (by decide)
    · intro hne _ _; exact absurd h1 hne
    · intro hne _ _ _; exact absurd h1 hne
    · rw [hval d h1]; left; rfl
  · by_cases h2 : d.orientationAttr = some "white"
    · have hval : ∀ x : BoardDom, x.orientationAttr ≠ some "black" →
          x.orientationAttr = some "white" →
          determinePlayerColor x = (false, ColorMethod.explicitAttrWhite) := by
        intro x hx1 hx2
        unfold determinePlayerColor
        rw [if_neg hx1, if_pos hx2]
      refine ⟨?_, ?_, ?_, ?_, ?_, ?_⟩
      · intro y1 y8
        rw [hval { d with rank1Y := y1, rank8Y := y8 } h1 h2, hval d h1 h2]
      · intro hh; exact absurd hh h1
      · intro _; rw [hval d h1 h2]
      · intro _ hne _; exact absurd h2 hne
      · intro _ hne _ _; exact absurd h2 hne
      · rw [hval d h1 h2]; right; left; rfl
    · by_cases h3 : d.boardFlipped = true
      · have hval : ∀ x : BoardDom, x.orientationAttr ≠ some "black" →
            x.orientationAttr ≠ some "white" → x.boardFlipped = true →
            determinePlayerColor x = (true, ColorMethod.explicitFlipped) := by
          intro x hx1 hx2 hx3
          unfold determinePlayerColor
          rw [if_neg hx1, if_neg hx2, if_pos hx3]
        refine ⟨?_, ?_, ?_, ?_, ?_, ?_⟩
        · intro y1 y8
          rw [hval { d with rank1Y := y1, rank8Y := y8 } h1 h2 h3, hval d h1 h2 h3]
        · intro hh; exact absurd hh h1
        · intro hh; exact absurd hh h2
        · intro _ _ _; rw [hval d h1 h2 h3]
        · intro _ _ hf _; rw [h3] at hf; exact absurd hf (by decide)
        · rw [hval d h1 h2 h3]; right; right; left; rfl
      · have h4 : d.boardBlackPersp = true := by
          rcases h with hh | hh | hh | hh
          · exact absurd hh h1
          · exact absurd hh h2
          · exact absurd hh h3
          · exact hh
        have hval : ∀ x : BoardDom, x.orientationAttr ≠ some "black" →
            x.orientationAttr ≠ some "white" → ¬(x.boardFlipped = true) →
            x.boardBlackPersp = true →
            determinePlayerColor x = (true, ColorMethod.explicitBlackPersp) := by
          intro x hx1 hx2 hx3 hx4
          unfold determinePlayerColor
          rw [if_neg hx1, if_neg hx2, if_neg hx3, if_pos hx4]
        refine ⟨?_, ?_, ?_, ?_, ?_, ?_⟩
        · intro y1 y8
          rw [hval { d with rank1Y := y1, rank8Y := y8 } h1 h2 h3 h4, hval d h1 h2 h3 h4]
        · intro hh; exact absurd hh h1
        · intro hh; exact absurd hh h2
        · intro _ _ hf; exact absurd hf h3
        · intro _ _ _ _; rw [hval d h1 h2 h3 h4]
        · rw [hval d h1 h2 h3 h4]; right; right; right; rfl

/-- Witness for C3: a LIVE_BOARD board root carrying the `flipped` class
while the rank labels (rank-1 label at y=100 below the rank-8 label at
y=5) would make the geometric fallback answer "White at the bottom":
the resolver answers Black, ignoring the labels. -/
theorem c3_explicit_indicator_witness :
    (∀ y1 y8 : Option ℚ,
      determinePlayerColor
        { (⟨LayoutType.LIVE_BOARD, none, true, false, false, false, false,
            some 100, some 5⟩ : BoardDom) with rank1Y := y1, rank8Y := y8 } =
        determinePlayerColor
          ⟨LayoutType.LIVE_BOARD, none, true, false, false, false, false,
            some 100, some 5⟩) ∧
    (determinePlayerColor
        ⟨LayoutType.LIVE_BOARD, none, true, false, false, false, false,
          some 100, some 5⟩).1 = true := by
  have h := c3_explicit_indicator_overrides_fallback
    ⟨LayoutType.LIVE_BOARD, none, true, false, false, false, false,
      some 100, some 5⟩ (Or.inr (Or.inr (Or.inl rfl)))
  exact ⟨h.1, h.2.2.2.1 (by decide) (by decide) rfl⟩

/-- Claim C4: when candidate piece nodes exist but zero pieces were
successfully placed, `generateFEN` returns null, and `calculateAndSendFEN`
neither transmits nor updates the last-transmitted FEN snapshot for that
cycle — a board with piece nodes is never published as an empty board. -/
theorem c4_extraction_failure_not_published (nodes : List PieceNode) (s : ℚ)
    (pb : Bool) (cur : String) (active : String) (mn : Nat)
    (hne : nodes ≠ []) (hzero : (processPieces nodes s pb).2 = 0) :
    generateFEN nodes s pb active mn = none ∧
    calculateAndSendFEN cur (generateFEN nodes s pb active mn) = (cur, false) := by
  have hlen : 0 < nodes.length := List.length_pos.mpr hne
  have hplace : generateFENPlacement nodes s pb = none := by
    unfold generateFENPlacement
    rw [if_pos ⟨hzero, hlen⟩]
  have hfen : generateFEN nodes s pb active mn = none := by
    unfold generateFEN
    rw [hplace]
    rfl
  refine ⟨hfen, ?_⟩
  rw [hfen]
  rfl

/- Evaluation lemmas for the C4 witness: a single piece node sitting far
off the board's left edge decodes to nothing, so nothing is placed. -/

lemma mapCoords_offboard : mapCoordsToSquare (-600) 0 60 false = none := by
  unfold mapCoordsToSquare
  rw [if_neg (by norm_num : ¬(60 : ℚ) ≤ 0)]
  simp only
  rw [show ((-600 : ℚ) / 60) = ((-10 : ℤ) : ℚ) by norm_num,
      show ((0 : ℚ) / 60) = ((0 : ℤ) : ℚ) by norm_num,
      Int.floor_intCast, Int.floor_intCast]
  rw [if_pos (by norm_num)]

lemma decode_offboard : decodePiece 60 false ⟨'P', 'w', -600, 0⟩ = none := by
  show (mapCoordsToSquare (-600) 0 60 false).map _ = none
  rw [mapCoords_offboard]
  rfl

lemma process_offboard :
    processPieces [(⟨'P', 'w', -600, 0⟩ : PieceNode)] 60 false = ([], 0) := by
  unfold processPieces
  simp only [List.foldl_cons, List.foldl_nil]
  unfold genFENStep
  rw [decode_offboard]

/-- Witness for C4: one candidate node at pixel x = −600 (off the board),
zero placements; generation signals failure and the send cycle is a
no-op. -/
theorem c4_extraction_failure_witness :
    ([(⟨'P', 'w', -600, 0⟩ : PieceNode)] ≠ ([] : List PieceNode)) ∧
    (processPieces [(⟨'P', 'w', -600, 0⟩ : PieceNode)] 60 false).2 = 0 ∧
    generateFEN [⟨'P', 'w', -600, 0⟩] 60 false "w" 1 = none ∧
    calculateAndSendFEN "" (generateFEN [⟨'P', 'w', -600, 0⟩] 60 false "w" 1) =
      ("", false) := by
  have h := c4_extraction_failure_not_published [⟨'P', 'w', -600, 0⟩] 60 false
    "" "w" 1 (by simp) (by rw [process_offboard])
  exact ⟨by simp, by rw [process_offboard], h.1, h.2⟩

/-- Claim C5: when two consecutive recompute cycles produce the same
(pieces, moveList, variant) triple — one that differs from the
last-transmitted snapshot — exactly one transmission occurs: the first
cycle transmits and installs the triple as the new snapshot, and the
second cycle, comparing structurally against that snapshot, does not
transmit and leaves the snapshot unchanged. -/
theorem c5_duplicate_triple_single_transmission (lastSent d : Snapshot)
    (h : lastSent ≠ d) :
    (onBoardChangeStep lastSent d).2 = true ∧
    (onBoardChangeStep lastSent d).1 = d ∧
    (onBoardChangeStep (onBoardChangeStep lastSent d).1 d).2 = false ∧
    (onBoardChangeStep (onBoardChangeStep lastSent d).1 d).1 = d := by
  have hc : d.pieces ≠ lastSent.pieces ∨ d.moveList ≠ lastSent.moveList ∨
      d.variant ≠ lastSent.variant := by
    by_contra hq
    push_neg at hq
    apply h
    cases lastSent
    cases d
    simp_all
  have h1 : onBoardChangeStep lastSent d = (d, true) := by
    simp only [onBoardChangeStep]
    rw [if_pos hc]
  have h2 : onBoardChangeStep d d = (d, false) := by
    simp only [onBoardChangeStep]
    rw [if_neg (by simp)]
  rw [h1]
  simp only
  exact ⟨trivial, trivial, by rw [h2], by rw [h2]⟩

/-- Witness for C5: starting from the initial empty snapshot, the triple
after 1. e4 is transmitted once and its repetition is suppressed. -/
theorem c5_duplicate_triple_witness :
    ((⟨[], [], ""⟩ : Snapshot) ≠ (⟨[("e2", "wP")], ["e4"], "standard"⟩ : Snapshot)) ∧
    (onBoardChangeStep ⟨[], [], ""⟩ ⟨[("e2", "wP")], ["e4"], "standard"⟩).2 = true ∧
    (onBoardChangeStep
      (onBoardChangeStep ⟨[], [], ""⟩ ⟨[("e2", "wP")], ["e4"], "standard"⟩).1
      ⟨[("e2", "wP")], ["e4"], "standard"⟩).2 = false := by
  have h := c5_duplicate_triple_single_transmission ⟨[], [], ""⟩
    ⟨[("e2", "wP")], ["e4"], "standard"⟩ (by decide)
  exact ⟨by decide, h.1, h.2.2.1⟩

/-- Claim C6: a burst of change notifications all falling inside one
debounce window (each arrives before the pending timer expires) triggers
exactly one recompute cycle, and that cycle fires strictly after the last
notification of the burst — so it observes the external state as of the
timer expiry, after the final notification.  `t :: ts` are the
chronological notification times and `D` the debounce delay. -/
theorem c6_debounce_coalesces_burst (D : Nat) (hD : 0 < D) (t : Nat)
    (ts : List Nat)
    (h : List.Chain (fun a b => a ≤ b ∧ b < a + D) t ts) :
    debounceFires D (t :: ts) = [ts.getLastD t + D] ∧
    ∀ u ∈ t :: ts, u < ts.getLastD t + D := by
  induction ts generalizing t with
  | nil =>
      refine ⟨rfl, ?_⟩
      intro u hu
      simp only [List.mem_singleton] at hu
      subst hu
      simpa using hD
  | cons t2 rest ih =>
      rcases List.chain_cons.mp h with ⟨h1, h2⟩
      have ihh := ih t2 h2
      rw [List.getLastD_cons]
      constructor
      · show (if t2 < t + D then debounceFires D (t2 :: rest)
              else (t + D) :: debounceFires D (t2 :: rest)) = _
        rw [if_pos h1.2]
        exact ihh.1
      · intro u hu
        rcases List.mem_cons.mp hu with hu | hu
        · subst hu
          exact lt_of_le_of_lt h1.1 (ihh.2 t2 (List.mem_cons_self t2 rest))
        · exact ihh.2 u hu

/-- Witness for C6: five notifications at 0, 50, 100, 150, 200 ms with the
150 ms debounce delay produce exactly one cycle, at 350 ms, after every
notification of the burst. -/
theorem c6_debounce_witness :
    debounceFires 150 [0, 50, 100, 150, 200] = [350] ∧
    ∀ u ∈ [0, 50, 100, 150, 200], u < 350 := by
  have h := c6_debounce_coalesces_burst 150 (by norm_num) 0 [50, 100, 150, 200]
    (by simp [List.chain_cons])
  exact ⟨h.1, fun u hu => h.2 u hu⟩

/-- Claim C7: a current session whose recorded move list has more than a
handful of entries (over 5, e.g. 40) that observes a candidate move list
with fewer than two entries (e.g. 0) is classified "startNew" — a fresh
session is created rather than extending the current one.  (This holds
for every session, URL, position and timestamp: the earlier signals can
only also answer "startNew".) -/
theorem c7_shrunk_moveList_starts_new_game (g : GameSession)
    (url : Option String) (pieces : PosMap) (ml : List String) (now : Int)
    (hlong : 5 < g.moveList.length) (hshort : ml.length < 2) :
    classifyGame g url pieces ml now = GameDecision.startNew := by
  unfold classifyGame
  suffices h : detectNewGame g url pieces ml now = true by
    rw [if_pos h]
  unfold detectNewGame
  split
  · rfl
  · split
    · rfl
    · split
      · rfl
      · have hcontra : 5 < g.moveList.length ∧ ml.length < 2 := ⟨hlong, hshort⟩
        exact absurd hcontra (by assumption)

/-- Witness for C7: a session with 40 recorded moves observing an empty
move list starts a new game. -/
theorem c7_shrunk_moveList_witness :
    classifyGame
      ⟨some "g1", some "123", none, List.replicate 40 "e4", 0⟩
      (some "123") [] [] 0 = GameDecision.startNew :=
  c7_shrunk_moveList_starts_new_game
    ⟨some "g1", some "123", none, List.replicate 40 "e4", 0⟩
    (some "123") [] [] 0 (by simp) (by simp)

lemma mapCoordsToSquare_bounds (x y s : ℚ) (pb : Bool) (q : Nat × Nat)
    (h : mapCoordsToSquare x y s pb = some q) :
    q.1 ≤ 7 ∧ 1 ≤ q.2 ∧ q.2 ≤ 8 := by
  unfold mapCoordsToSquare at h
  split at h
  · exact absurd h (by simp)
  · dsimp only at h
    split at h
    · exact absurd h (by simp)
    · rename_i hcond
      push_neg at hcond
      simp only [Option.some.injEq] at h
      subst h
      cases pb <;> simp <;> omega

lemma decodePiece_bounds (s : ℚ) (pb : Bool) (n : PieceNode)
    (t : Nat × Nat × Char) (h : decodePiece s pb n = some t) :
    t.1 ≤ 7 ∧ t.2.1 ≤ 7 := by
  unfold decodePiece at h
  cases hm : mapCoordsToSquare n.x n.y s pb with
  | none => rw [hm] at h; exact absurd h (by simp)
  | some q =>
      rw [hm] at h
      simp only [Option.map_some', Option.some.injEq] at h
      subst h
      have hb := mapCoordsToSquare_bounds n.x n.y s pb q hm
      exact ⟨by omega, hb.1⟩

lemma getCell_cons (e : Nat × Nat × Char) (b : Board) (r f : Nat) :
    getCell (e :: b) r f =
      (if e.1 == r && e.2.1 == f then some e.2.2 else getCell b r f) := by
  unfold getCell
  rw [List.find?_cons]
  by_cases hp : (e.1 == r && e.2.1 == f)
  · rw [if_pos hp]
    simp [hp]
  · rw [if_neg hp]
    simp only [Bool.not_eq_true] at hp
    rw [hp]

lemma getCell_foldl_genFENStep (s : ℚ) (pb : Bool) (l : List PieceNode) :
    ∀ (b : Board) (cnt : Nat) (r f : Nat),
      getCell (List.foldl (genFENStep s pb) (b, cnt) l).1 r f =
        (match getCell b r f with
         | some c => some c
         | none =>
           ((l.filterMap (decodePiece s pb)).find?
             (fun t => t.1 == r && t.2.1 == f)).map (fun t => t.2.2)) := by
  induction l with
  | nil =>
      intro b cnt r f
      simp only [List.foldl_nil, List.filterMap_nil, List.find?_nil, Option.map_none']
      cases getCell b r f <;> rfl
  | cons n l ih =>
      intro b cnt r f
      simp only [List.foldl_cons, List.filterMap_cons]
      cases hd : decodePiece s pb n with
      | none =>
          have hstep : genFENStep s pb (b, cnt) n = (b, cnt) := by
            unfold genFENStep
            rw [hd]
          rw [hstep, ih b cnt r f]
      | some t =>
          have hb := decodePiece_bounds s pb n t hd
          have hstep : genFENStep s pb (b, cnt) n =
              placePiece b cnt t.1 t.2.1 t.2.2 := by
            unfold genFENStep
            rw [hd]
          rw [hstep]
          unfold placePiece
          rw [if_pos ⟨hb.1, hb.2⟩]
          cases hcell : getCell b t.1 t.2.1 with
          | none =>
              simp only
              rw [ih ((t.1, t.2.1, t.2.2) :: b) (cnt + 1) r f]
              rw [getCell_cons]
              dsimp only
              cases hp : (t.1 == r && t.2.1 == f) with
              | true =>
                  obtain ⟨hr1, hr2⟩ : t.1 = r ∧ t.2.1 = f := by
                    simpa [Bool.and_eq_true, beq_iff_eq] using hp
                  subst hr1
                  subst hr2
                  rw [hcell]
                  simp
              | false =>
                  rw [if_neg (by simp [hp])]
                  cases hg : getCell b r f with
                  | some c => rfl
                  | none =>
                      simp only [List.find?_cons]
                      rw [hp]
          | some c0 =>
              simp only
              rw [ih b cnt r f]
              cases hp : (t.1 == r && t.2.1 == f) with
              | true =>
                  obtain ⟨hr1, hr2⟩ : t.1 = r ∧ t.2.1 = f := by
                    simpa [Bool.and_eq_true, beq_iff_eq] using hp
                  subst hr1
                  subst hr2
                  rw [hcell]
              | false =>
                  cases hg : getCell b r f with
                  | some c => rfl
                  | none =>
                      simp only [List.find?_cons]
                      rw [hp]

lemma lookupPos_map_overwrite (m : PosMap) (k v q : String) :
    lookupPos (m.map (fun e => if e.1 == k then (k, v) else e)) q =
      (if q = k then (m.find? (fun e => e.1 == k)).map (fun _ => v)
       else lookupPos m q) := by
  unfold lookupPos
  rw [List.find?_map]
  by_cases hq : q = k
  · subst hq
    have hpred : ((fun e : String × String => e.1 == q) ∘
        (fun e => if e.1 == q then (q, v) else e)) =
          (fun e : String × String => e.1 == q) := by
      funext e
      by_cases he : (e.1 == q) = true
      · have hee : e.1 = q := by simpa [beq_iff_eq] using he
        simp [hee]
      · have hee : ¬e.1 = q := by simpa [beq_iff_eq] using he
        simp [hee]
    rw [hpred, if_pos rfl]
    cases hf : m.find? (fun e : String × String => e.1 == q) with
    | none => rfl
    | some e =>
        have hpe := List.find?_some hf
        have hee : e.1 = q := by simpa [beq_iff_eq] using hpe
        simp [hee]
  · have hpred : ((fun e : String × String => e.1 == q) ∘
        (fun e => if e.1 == k then (k, v) else e)) =
          (fun e : String × String => e.1 == q) := by
      funext e
      by_cases he : (e.1 == k) = true
      · have hek : e.1 = k := by simpa [beq_iff_eq] using he
        simp [hek]
      · have hek : ¬e.1 = k := by simpa [beq_iff_eq] using he
        simp [hek]
    rw [hpred, if_neg hq]
    cases hf : m.find? (fun e : String × String => e.1 == q) with
    | none => rfl
    | some e =>
        have hpe := List.find?_some hf
        have heq : e.1 = q := by simpa [beq_iff_eq] using hpe
        have hek : ¬e.1 = k := by
          rw [heq]
          exact hq
        simp [hek]

lemma lookupPos_jsInsert (m : PosMap) (k v q : String) :
    lookupPos (jsInsert m k v) q = if q = k then some v else lookupPos m q := by
  unfold jsInsert
  cases hfind : (m.find? (fun e => e.1 == k)).isSome with
  | true =>
      rw [if_pos rfl]
      rw [lookupPos_map_overwrite]
      by_cases hq : q = k
      · rw [if_pos hq, if_pos hq]
        obtain ⟨e, he⟩ := Option.isSome_iff_exists.mp hfind
        rw [he]
        rfl
      · rw [if_neg hq, if_neg hq]
  | false =>
      rw [if_neg (by simp [hfind])]
      unfold lookupPos
      rw [List.find?_append]
      by_cases hq : q = k
      · subst hq
        have hnone : m.find? (fun e : String × String => e.1 == q) = none := by
          cases hm : m.find? (fun e : String × String => e.1 == q)
          · rfl
          · rw [hm] at hfind
            simp at hfind
        rw [hnone, if_pos rfl]
        simp [List.find?]
      · rw [if_neg hq]
        cases hm : m.find? (fun e : String × String => e.1 == q) with
        | some e => simp
        | none =>
            simp only [Option.none_or]
            have hkq : ¬(k = q) := fun hc => hq hc.symm
            have hb : (k == q) = false := beq_eq_false_iff_ne.mpr hkq
            simp [List.find?_cons, List.find?_nil, hb]

lemma lookupPos_foldl_jsInsert (l : List (String × String)) :
    ∀ (m : PosMap) (q : String),
      lookupPos (l.foldl (fun m e => jsInsert m e.1 e.2) m) q =
        (match l.reverse.find? (fun e => e.1 == q) with
         | some e => some e.2
         | none => lookupPos m q) := by
  induction l with
  | nil => intro m q; rfl
  | cons e l ih =>
      intro m q
      simp only [List.foldl_cons, List.reverse_cons, List.find?_append]
      rw [ih (jsInsert m e.1 e.2) q]
      cases hf : l.reverse.find? (fun e => e.1 == q) with
      | some e2 => simp
      | none =>
          simp only [Option.none_or]
          rw [lookupPos_jsInsert]
          by_cases hq : q = e.1
          · subst hq
            rw [if_pos rfl]
            simp [List.find?]
          · rw [if_neg hq]
            have hne : ¬(e.1 = q) := fun hc => hq hc.symm
            have hb : (e.1 == q) = false := beq_eq_false_iff_ne.mpr hne
            simp [List.find?_cons, List.find?_nil, hb]

/-- Claim C8 (amended): the two extraction paths resolve square collisions
differently.  In `generateFEN` the first write wins: a grid cell ends up
holding the FEN character of the FIRST node that decodes to it (later
collisions are logged and discarded).  In `extractPieces` a later node
silently overwrites: a square ends up holding the piece code of the LAST
node that decodes to it. -/
theorem c8_collision_behavior_per_implementation :
    (∀ (nodes : List PieceNode) (s : ℚ) (pb : Bool) (r f : Nat),
      getCell (processPieces nodes s pb).1 r f =
        ((nodes.filterMap (decodePiece s pb)).find?
          (fun t => t.1 == r && t.2.1 == f)).map (fun t => t.2.2)) ∧
    (∀ (nodes : List LiveNode) (s : ℚ) (sq : String),
      lookupPos (extractPieces nodes s) sq =
        ((nodes.filterMap (decodeLiveNode s)).reverse.find?
          (fun e => e.1 == sq)).map (fun e => e.2)) := by
  constructor
  · intro nodes s pb r f
    unfold processPieces
    rw [getCell_foldl_genFENStep]
    rfl
  · intro nodes s sq
    unfold extractPieces
    rw [lookupPos_foldl_jsInsert]
    cases hf : (nodes.filterMap (decodeLiveNode s)).reverse.find?
        (fun e => e.1 == sq) with
    | some e => rfl
    | none => rfl

lemma decodeLive_at_origin (c0 c1 : Char) :
    decodeLiveNode 10 ⟨c0, c1, 0, 0⟩ =
      some (squareName 0 8,
        String.mk [if c0 = 'w' then 'w' else 'b', c1.toUpper]) := by
  unfold decodeLiveNode
  rw [if_neg (by norm_num : ¬(10 : ℚ) ≤ 0)]
  dsimp only
  rw [show ((0 : ℚ) / 10) = ((0 : ℤ) : ℚ) by norm_num, Int.floor_intCast]
  rw [if_pos (by norm_num)]
  rfl

/-- Counterexample to C8 as stated: two piece nodes at the same pixel
offset (both decode to a8); `extractPieces` returns the LATER piece
("bK"), not the earlier one ("wQ") that the claim requires. -/
theorem c8_extractPieces_last_write_counterexample :
    decodeLiveNode 10 ⟨'w', 'q', 0, 0⟩ = some ("a8", "wQ") ∧
    decodeLiveNode 10 ⟨'b', 'k', 0, 0⟩ = some ("a8", "bK") ∧
    lookupPos (extractPieces [⟨'w', 'q', 0, 0⟩, ⟨'b', 'k', 0, 0⟩] 10) "a8" =
      some "bK" ∧
    ("bK" : String) ≠ "wQ" := by
  have h1 : decodeLiveNode 10 (⟨'w', 'q', 0, 0⟩ : LiveNode) =
      some ("a8", "wQ") := by
    rw [decodeLive_at_origin]
    decide
  have h2 : decodeLiveNode 10 (⟨'b', 'k', 0, 0⟩ : LiveNode) =
      some ("a8", "bK") := by
    rw [decodeLive_at_origin]
    decide
  refine ⟨h1, h2, ?_, by decide⟩
  unfold extractPieces
  rw [show [(⟨'w', 'q', 0, 0⟩ : LiveNode), ⟨'b', 'k', 0, 0⟩].filterMap
        (decodeLiveNode 10) = [("a8", "wQ"), ("a8", "bK")] by
      simp [List.filterMap_cons, h1, h2]]
  decide

/-- Claim C9: for every inbound analysis batch, the renderer appends
arrows in non-increasing order of arrow length — the drawn sequence is
sorted so that each later shape's (squared) endpoint distance is at most
each earlier one's, the drawn shapes are exactly the batch's resolvable
shapes, and a shape strictly shorter than another always sits at a
strictly later position in the drawing order, layering it on top. -/
theorem c9_arrows_drawn_longest_first (batch : List AnalysisShape) (s : ℚ)
    (pb : Bool) :
    List.Sorted (fun a b => arrowLengthSq b ≤ arrowLengthSq a)
      (renderDrawOrder batch s pb) ∧
    (renderDrawOrder batch s pb).Perm (batch.filterMap (resolveShape s pb)) ∧
    ∀ i j : Fin (renderDrawOrder batch s pb).length,
      arrowLengthSq ((renderDrawOrder batch s pb).get i) <
        arrowLengthSq ((renderDrawOrder batch s pb).get j) →
      (j : Nat) < (i : Nat) := by
  have hsorted : List.Pairwise
      (fun a b => (decide (arrowLengthSq b ≤ arrowLengthSq a)) = true)
      (renderDrawOrder batch s pb) := by
    unfold renderDrawOrder sortByLengthDesc
    exact List.sorted_mergeSort
      (fun a b c h1 h2 => by
        simp only [decide_eq_true_eq] at h1 h2 ⊢
        exact le_trans h2 h1)
      (fun a b => by
        simp only [Bool.or_eq_true, decide_eq_true_eq]
        exact le_total (arrowLengthSq b) (arrowLengthSq a))
      _
  have hsorted2 : List.Sorted (fun a b => arrowLengthSq b ≤ arrowLengthSq a)
      (renderDrawOrder batch s pb) := by
    refine hsorted.imp ?_
    intro a b h
    simpa using h
  refine ⟨hsorted2, ?_, ?_⟩
  · unfold renderDrawOrder sortByLengthDesc
    exact List.mergeSort_perm _ _
  · intro i j hij
    rcases lt_trichotomy (i : Nat) (j : Nat) with hlt | heq | hgt
    · have hp := List.pairwise_iff_get.mp hsorted2 i j hlt
      exact absurd hij (not_lt.mpr hp)
    · have hije : i = j := Fin.ext heq
      subst hije
      exact absurd hij (lt_irrefl _)
    · exact hgt

lemma lookupPos_isSome_iff (m : PosMap) (k : String) :
    (lookupPos m k).isSome ↔ k ∈ m.map Prod.fst := by
  unfold lookupPos
  rw [Option.isSome_map']
  rw [List.find?_isSome]
  simp only [List.mem_map, beq_iff_eq]

lemma lookupPos_eq_none_iff (m : PosMap) (k : String) :
    lookupPos m k = none ↔ k ∉ m.map Prod.fst := by
  rw [← lookupPos_isSome_iff]
  cases lookupPos m k <;> simp

lemma lookupPos_mem_nodup (m : PosMap) (h : (m.map Prod.fst).Nodup)
    (k v : String) (hm : (k, v) ∈ m) : lookupPos m k = some v := by
  induction m with
  | nil => exact absurd hm (List.not_mem_nil _)
  | cons e m ih =>
      simp only [List.map_cons, List.nodup_cons] at h
      rcases List.mem_cons.mp hm with he | hmem
      · subst he
        unfold lookupPos
        simp [List.find?_cons]
      · have hkm : k ∈ m.map Prod.fst :=
          List.mem_map.mpr ⟨(k, v), hmem, rfl⟩
        have hek : ¬(e.1 = k) := fun hc => h.1 (hc ▸ hkm)
        have heb : (e.1 == k) = false := beq_eq_false_iff_ne.mpr hek
        unfold lookupPos at ih ⊢
        simp only [List.find?_cons, heb]
        exact ih h.2 hmem

lemma countP_diff_eq_card (a b : PosMap) (ha : (a.map Prod.fst).Nodup) :
    a.countP (fun e => match lookupPos b e.1 with
      | none => true
      | some q => q != e.2) =
    ((posKeys a).filter (fun sq => lookupPos b sq ≠ lookupPos a sq)).card := by
  have hstep1 : a.countP (fun e => match lookupPos b e.1 with
      | none => true
      | some q => q != e.2) =
    a.countP (fun e => decide (lookupPos b e.1 ≠ lookupPos a e.1)) := by
    refine List.countP_congr ?_
    intro e he
    have hla : lookupPos a e.1 = some e.2 :=
      lookupPos_mem_nodup a ha e.1 e.2 (by simpa using he)
    rw [hla]
    cases hlb : lookupPos b e.1 with
    | none => simp
    | some q => simp [bne_iff_ne]
  rw [hstep1]
  have hstep2 : a.countP (fun e => decide (lookupPos b e.1 ≠ lookupPos a e.1)) =
      (a.map Prod.fst).countP
        (fun sq => decide (lookupPos b sq ≠ lookupPos a sq)) := by
    rw [List.countP_map]
    rfl
  rw [hstep2]
  rw [List.countP_eq_length_filter]
  rw [← List.toFinset_card_of_nodup
    (List.Nodup.filter _ ha)]
  rw [List.toFinset_filter]
  unfold posKeys
  congr 1
  refine Finset.filter_congr ?_
  intro x _
  simp

lemma filter_diff_split (a b : PosMap) :
    ((posKeys a).filter (fun sq => lookupPos b sq ≠ lookupPos a sq)).card =
      ((posKeys a ∩ posKeys b).filter
        (fun sq => lookupPos a sq ≠ lookupPos b sq)).card +
      (posKeys a \ posKeys b).card := by
  have hset : (posKeys a).filter (fun sq => lookupPos b sq ≠ lookupPos a sq) =
      ((posKeys a ∩ posKeys b).filter
        (fun sq => lookupPos a sq ≠ lookupPos b sq)) ∪ (posKeys a \ posKeys b) := by
    ext sq
    simp only [Finset.mem_filter, Finset.mem_union, Finset.mem_inter,
      Finset.mem_sdiff]
    constructor
    · rintro ⟨hA, hdiff⟩
      by_cases hB : sq ∈ posKeys b
      · exact Or.inl ⟨⟨hA, hB⟩, fun hc => hdiff hc.symm⟩
      · exact Or.inr ⟨hA, hB⟩
    · rintro (⟨⟨hA, hB⟩, hdiff⟩ | ⟨hA, hB⟩)
      · exact ⟨hA, fun hc => hdiff hc.symm⟩
      · refine ⟨hA, ?_⟩
        have hbn : lookupPos b sq = none := by
          rw [lookupPos_eq_none_iff]
          simpa [posKeys, List.mem_toFinset] using hB
        have han : (lookupPos a sq).isSome := by
          rw [lookupPos_isSome_iff]
          exact (by simpa [posKeys, List.mem_toFinset] using hA)
        rw [hbn]
        intro hc
        rw [← hc] at han
        simp at han
  rw [hset]
  refine Finset.card_union_of_disjoint ?_
  refine Finset.disjoint_left.mpr ?_
  intro sq hs1 hs2
  rcases Finset.mem_filter.mp hs1 with ⟨hin, _⟩
  rcases Finset.mem_inter.mp hin with ⟨_, hB⟩
  exact (Finset.mem_sdiff.mp hs2).2 hB

/-- Claim C10 (amended): for position maps with duplicate-free keys,
`countPositionDifferences` is symmetric, and its value equals the number
of squares occupied in both maps with different piece codes plus HALF the
number of squares occupied in exactly one of the two maps (each one-sided
square is counted in only one of the two loops, so halving the total
gives it weight 1/2). -/
theorem c10_positionDifferences_symmetric_halfweight (a b : PosMap) (ha : (a.map Prod.fst).Nodup)
    (hb : (b.map Prod.fst).Nodup) :
    countPositionDifferences a b = countPositionDifferences b a ∧
    countPositionDifferences a b =
      (bothOccupiedDiff a b : ℚ) + (oneSideOnly a b : ℚ) / 2 := by
  constructor
  · unfold countPositionDifferences
    dsimp only
    rw [Nat.add_comm]
  · unfold countPositionDifferences bothOccupiedDiff oneSideOnly
    dsimp only
    rw [countP_diff_eq_card a b ha, countP_diff_eq_card b a hb]
    rw [filter_diff_split a b, filter_diff_split b a]
    have hdisj : Disjoint (posKeys a \ posKeys b) (posKeys b \ posKeys a) := by
      refine Finset.disjoint_left.mpr ?_
      intro sq h1 h2
      exact (Finset.mem_sdiff.mp h1).2 (Finset.mem_sdiff.mp h2).1
    rw [Finset.card_union_of_disjoint hdisj]
    have hboth : ((posKeys b ∩ posKeys a).filter
        (fun sq => lookupPos b sq ≠ lookupPos a sq)).card =
        ((posKeys a ∩ posKeys b).filter
          (fun sq => lookupPos a sq ≠ lookupPos b sq)).card := by
      rw [Finset.inter_comm]
      congr 1
      refine Finset.filter_congr ?_
      intro x _
      exact ne_comm
    rw [hboth]
    push_cast
    ring

/-- Counterexample to C10 as stated: for A = a1 ↦ wR and B = ∅ there is
exactly one differing square, but `countPositionDifferences` returns 1/2,
not 1 — a square occupied in only one map contributes a half, because the
final division by two assumes every difference was counted twice. -/
theorem c10_positionDifferences_counterexample :
    countPositionDifferences [("a1", "wR")] [] = 1 / 2 ∧
    claimedDifferenceCount [("a1", "wR")] [] = 1 ∧
    countPositionDifferences [("a1", "wR")] [] ≠
      (claimedDifferenceCount [("a1", "wR")] [] : ℚ) := by
  have hc : claimedDifferenceCount [("a1", "wR")] ([] : PosMap) = 1 := by decide
  have hcount : countPositionDifferences [("a1", "wR")] [] = 1 / 2 := by
    unfold countPositionDifferences
    dsimp only
    simp only [List.countP_cons, List.countP_nil, lookupPos, List.find?_nil,
      Option.map_none']
    norm_num
  refine ⟨hcount, hc, ?_⟩
  rw [hcount, hc]
  norm_num

/-- Witness for C10: A = a1 ↦ wR, e4 ↦ wP and B = a1 ↦ bR; the count is
symmetric and equals 1 (a1 differs in both) + 1/2 (e4 occupied only in
A) = 3/2. -/
theorem c10_positionDifferences_witness :
    (([("a1", "wR"), ("e4", "wP")] : PosMap).map Prod.fst).Nodup ∧
    (([("a1", "bR")] : PosMap).map Prod.fst).Nodup ∧
    countPositionDifferences [("a1", "wR"), ("e4", "wP")] [("a1", "bR")] =
      countPositionDifferences [("a1", "bR")] [("a1", "wR"), ("e4", "wP")] ∧
    countPositionDifferences [("a1", "wR"), ("e4", "wP")] [("a1", "bR")] =
      (bothOccupiedDiff [("a1", "wR"), ("e4", "wP")] [("a1", "bR")] : ℚ) +
        (oneSideOnly [("a1", "wR"), ("e4", "wP")] [("a1", "bR")] : ℚ) / 2 := by
  have h := c10_positionDifferences_symmetric_halfweight [("a1", "wR"), ("e4", "wP")] [("a1", "bR")]
    (by decide) (by decide)
  exact ⟨by decide, by decide, h.1, h.2⟩
